import Mathlib

/-!
Verification of the masked mean pooling and export driver of
`src/convertModel.py` (RustyMailBot conversion script).

Tensors are modelled over ℚ as nested lists:
a hidden-state tensor of shape (B, T, H) is a `List (List (List ℚ))`,
an attention mask of shape (B, T) is a `List (List ℚ)`.
All torch operations used by `SentenceEmbeddingModel.forward`
(`unsqueeze(-1).expand(...).float()`, `*`, `torch.sum(·, dim=1)`,
`torch.clamp(·, min=1e-9)`, `/`) are embedded elementwise on these lists,
with `List.zipWith` for the elementwise binary operations (they are only
applied at matching shapes, where truncation never occurs).
-/

namespace ConvertModel

abbrev Vec := List ℚ
abbrev Mat := List Vec
abbrev Tensor3 := List Mat

/-- The clamp floor 1e-9 from line 25 of convertModel.py. -/
def eps : ℚ := 1 / 1000000000

/-- Elementwise product of two vectors. -/
def vecMul (a b : Vec) : Vec := List.zipWith (fun x y => x * y) a b

/-- Elementwise sum of two vectors. -/
def vecAdd (a b : Vec) : Vec := List.zipWith (fun x y => x + y) a b

/-- Elementwise quotient of two vectors. -/
def vecDiv (a b : Vec) : Vec := List.zipWith (fun x y => x / y) a b

/-- The all-zero vector of length H. -/
def zeros (H : ℕ) : Vec := List.replicate H 0

/-- One row of `attention_mask.unsqueeze(-1).expand(token_embeddings.size()).float()`:
each mask scalar becomes an H-vector of copies (line 21 of convertModel.py). -/
def expandRow (m : Vec) (H : ℕ) : Mat := m.map (fun x => List.replicate H x)

/-- `attention_mask.unsqueeze(-1).expand(token_embeddings.size()).float()` on the
whole (B, T) mask, producing a (B, T, H) tensor (line 21 of convertModel.py). -/
def unsqueezeExpand (mask : Mat) (H : ℕ) : Tensor3 :=
  mask.map (fun row => expandRow row H)

/-- Elementwise product of two (B, T, H) tensors (`token_embeddings * input_mask_expanded`,
line 23 of convertModel.py). -/
def mul3 (a b : Tensor3) : Tensor3 :=
  List.zipWith (fun x y => List.zipWith vecMul x y) a b

/-- `torch.sum(·, dim=1)` on a (B, T, H) tensor: per batch element, sum the T
row vectors, starting from the H-dimensional zero vector (lines 23 and 25). -/
def sumDim1 (t : Tensor3) (H : ℕ) : Mat :=
  t.map (fun rows => rows.foldr vecAdd (zeros H))

/-- `torch.clamp(·, min := c)` elementwise on a (B, H) matrix (line 25). -/
def clampMin (m : Mat) (c : ℚ) : Mat :=
  m.map (fun row => row.map (fun x => max x c))

/-- Elementwise quotient of two (B, H) matrices (line 26). -/
def div2 (a b : Mat) : Mat := List.zipWith vecDiv a b

namespace SentenceEmbeddingModel

/-- `SentenceEmbeddingModel.forward` (lines 16-27 of convertModel.py), starting
from the encoder output `token_embeddings` of shape (B, T, H) and
`attention_mask` of shape (B, T); H is the hidden size read off
`token_embeddings.size()` by the `expand` call. -/
def forward (token_embeddings : Tensor3) (attention_mask : Mat) (H : ℕ) : Mat :=
  let input_mask_expanded := unsqueezeExpand attention_mask H
  let sum_embeddings := sumDim1 (mul3 token_embeddings input_mask_expanded) H
  let sum_mask := clampMin (sumDim1 input_mask_expanded H) eps
  let mean_embeddings := div2 sum_embeddings sum_mask
  mean_embeddings

end SentenceEmbeddingModel

/-- Masked mean pooling exactly as the spec's section 4.1 words it, written
independently of `forward`: (1) expand the mask to (B, T, H) by broadcasting
along the hidden dimension; (2) elementwise product with the hidden states,
summed over the sequence dimension T, giving (B, H); (3) sum the expanded mask
over T and clamp each entry to a minimum of 1e-9; (4) elementwise quotient. -/
def specMaskedMeanPooling (hidden : Tensor3) (mask : Mat) (H : ℕ) : Mat :=
  let expanded := mask.map (fun row => row.map (fun x => List.replicate H x))
  let summed := (List.zipWith (fun hrow erow =>
      List.zipWith (fun hv ev => List.zipWith (fun x y => x * y) hv ev) hrow erow)
      hidden expanded).map
    (fun rows => rows.foldr (fun a b => List.zipWith (fun x y => x + y) a b)
      (List.replicate H 0))
  let counts := expanded.map
    (fun rows => rows.foldr (fun a b => List.zipWith (fun x y => x + y) a b)
      (List.replicate H 0))
  let clamped := counts.map (fun row => row.map (fun x => max x eps))
  List.zipWith (fun a b => List.zipWith (fun x y => x / y) a b) summed clamped

/-- Pooling of a single batch element: token embeddings (T, H) and mask row (T). -/
def rowForward (te : Mat) (m : Vec) (H : ℕ) : Vec :=
  vecDiv ((List.zipWith vecMul te (expandRow m H)).foldr vecAdd (zeros H))
    (((expandRow m H).foldr vecAdd (zeros H)).map (fun x => max x eps))

/-- The token vectors at positions where the 0/1 mask is 1. -/
def selectedVecs (te : Mat) (m : Vec) : Mat :=
  (te.zip m).filterMap (fun p => if p.2 = 1 then some p.1 else none)

/-- Arithmetic mean of a list of H-vectors: vector sum divided by count. -/
def meanVecs (vs : Mat) (H : ℕ) : Vec :=
  (vs.foldr vecAdd (zeros H)).map (fun x => x / (vs.length : ℚ))

/- ## Structural lemmas -/

theorem forward_eq_zipWith (h : Tensor3) (m : Mat) (H : ℕ) :
    SentenceEmbeddingModel.forward h m H
      = List.zipWith (fun te r => rowForward te r H) h m := by
  induction h generalizing m with
  | nil => cases m <;> rfl
  | cons te h' ih =>
    cases m with
    | nil => rfl
    | cons r m' =>
      show rowForward te r H :: SentenceEmbeddingModel.forward h' m' H
          = rowForward te r H :: List.zipWith (fun te r => rowForward te r H) h' m'
      rw [ih]

theorem zipWith_replicate_replicate {α β γ : Type} (f : α → β → γ) (n : ℕ) (a : α) (b : β) :
    List.zipWith f (List.replicate n a) (List.replicate n b)
      = List.replicate n (f a b) := by
  induction n with
  | zero => rfl
  | succ k ih =>
    simp [List.replicate_succ, ih]

theorem mem_zipWith {α β γ : Type} (f : α → β → γ) :
    ∀ (a : List α) (b : List β) (x : γ),
      x ∈ List.zipWith f a b → ∃ u v, u ∈ a ∧ v ∈ b ∧ x = f u v
  | [], _, _, hx => by simp at hx
  | _ :: _, [], _, hx => by simp at hx
  | u :: a', v :: b', x, hx => by
    rcases List.mem_cons.mp hx with hx | hx
    · exact ⟨u, v, List.mem_cons_self _ _, List.mem_cons_self _ _, hx⟩
    · rcases mem_zipWith f a' b' x hx with ⟨u', v', hu, hv, hxe⟩
      exact ⟨u', v', List.mem_cons_of_mem _ hu, List.mem_cons_of_mem _ hv, hxe⟩

/- ## Vector arithmetic lemmas -/

theorem vecMul_replicate_one (v : Vec) (H : ℕ) (hv : v.length = H) :
    vecMul v (List.replicate H 1) = v := by
  subst hv
  induction v with
  | nil => rfl
  | cons a v' ih =>
    simp only [List.length_cons, List.replicate_succ, vecMul, List.zipWith_cons_cons, mul_one]
    exact congrArg _ ih

theorem vecMul_replicate_zero (v : Vec) (H : ℕ) (hv : v.length = H) :
    vecMul v (List.replicate H 0) = zeros H := by
  subst hv
  induction v with
  | nil => rfl
  | cons a v' ih =>
    simp only [List.length_cons, List.replicate_succ, vecMul, List.zipWith_cons_cons, mul_zero,
      zeros] at ih ⊢
    exact congrArg _ ih

theorem vecAdd_zeros_left (w : Vec) (H : ℕ) (hw : w.length = H) :
    vecAdd (zeros H) w = w := by
  subst hw
  induction w with
  | nil => rfl
  | cons a w' ih =>
    simp only [List.length_cons, zeros, List.replicate_succ, vecAdd, List.zipWith_cons_cons,
      zero_add] at ih ⊢
    exact congrArg _ ih

theorem vecAdd_zeros_right (w : Vec) (H : ℕ) (hw : w.length = H) :
    vecAdd w (zeros H) = w := by
  subst hw
  induction w with
  | nil => rfl
  | cons a w' ih =>
    simp only [List.length_cons, zeros, List.replicate_succ, vecAdd, List.zipWith_cons_cons,
      add_zero] at ih ⊢
    exact congrArg _ ih

theorem vecAdd_length (a b : Vec) : (vecAdd a b).length = min a.length b.length := by
  simp [vecAdd]

theorem vecDiv_replicate (s : Vec) (H : ℕ) (c : ℚ) (hs : s.length = H) :
    vecDiv s (List.replicate H c) = s.map (fun x => x / c) := by
  subst hs
  induction s with
  | nil => rfl
  | cons a s' ih =>
    simp only [List.length_cons, List.replicate_succ, vecDiv, List.zipWith_cons_cons,
      List.map_cons] at ih ⊢
    exact congrArg _ ih

/-- Summing the expanded mask row over T gives H copies of the plain mask sum. -/
theorem foldr_expandRow (m : Vec) (H : ℕ) :
    (expandRow m H).foldr vecAdd (zeros H) = List.replicate H m.sum := by
  induction m with
  | nil => simp [expandRow, zeros]
  | cons x m' ih =>
    show vecAdd (List.replicate H x) ((expandRow m' H).foldr vecAdd (zeros H))
        = List.replicate H (x :: m').sum
    rw [ih, vecAdd, zipWith_replicate_replicate, List.sum_cons]

theorem zipWith_vecMul_length (te : Mat) (m : Vec) (H : ℕ)
    (hwf : ∀ v ∈ te, v.length = H) :
    ∀ w ∈ List.zipWith vecMul te (expandRow m H), w.length = H := by
  intro w hw
  rcases mem_zipWith vecMul te (expandRow m H) w hw with ⟨u, ev, hu, hev, hweq⟩
  rcases List.mem_map.mp hev with ⟨x, _, hxe⟩
  subst hweq
  rw [← hxe]
  simp [vecMul, hwf u hu]

theorem foldr_vecAdd_length (vs : Mat) (H : ℕ) (h : ∀ v ∈ vs, v.length = H) :
    (vs.foldr vecAdd (zeros H)).length = H := by
  induction vs with
  | nil => simp [zeros]
  | cons v vs' ih =>
    show (vecAdd v (vs'.foldr vecAdd (zeros H))).length = H
    rw [vecAdd_length, ih (fun w hw => h w (List.mem_cons_of_mem _ hw)),
      h v (List.mem_cons_self _ _), min_self]

/-- The masked sum over T equals the plain sum of the selected token vectors. -/
theorem masked_sum_eq_selected_sum :
    ∀ (te : Mat) (m : Vec) (H : ℕ), (∀ v ∈ te, v.length = H) →
      (∀ x ∈ m, x = 0 ∨ x = 1) →
      (List.zipWith vecMul te (expandRow m H)).foldr vecAdd (zeros H)
        = (selectedVecs te m).foldr vecAdd (zeros H)
  | [], m, H, _, _ => by cases m <;> rfl
  | v :: te', [], H, _, _ => rfl
  | v :: te', x :: m', H, hwf, h01 => by
    have hwf' : ∀ w ∈ te', w.length = H := fun w hw => hwf w (List.mem_cons_of_mem _ hw)
    have h01' : ∀ y ∈ m', y = 0 ∨ y = 1 := fun y hy => h01 y (List.mem_cons_of_mem _ hy)
    have ih := masked_sum_eq_selected_sum te' m' H hwf' h01'
    have hlen : ((List.zipWith vecMul te' (expandRow m' H)).foldr vecAdd (zeros H)).length = H :=
      foldr_vecAdd_length _ H (zipWith_vecMul_length te' m' H hwf')
    rcases h01 x (List.mem_cons_self _ _) with hx | hx <;> subst hx
    · show vecAdd (vecMul v (List.replicate H 0))
          ((List.zipWith vecMul te' (expandRow m' H)).foldr vecAdd (zeros H))
          = (selectedVecs (v :: te') (0 :: m')).foldr vecAdd (zeros H)
      rw [vecMul_replicate_zero v H (hwf v (List.mem_cons_self _ _)),
        vecAdd_zeros_left _ H hlen, ih]
      have : selectedVecs (v :: te') ((0 : ℚ) :: m') = selectedVecs te' m' := by
        simp [selectedVecs, List.zip_cons_cons]
      rw [this]
    · show vecAdd (vecMul v (List.replicate H 1))
          ((List.zipWith vecMul te' (expandRow m' H)).foldr vecAdd (zeros H))
          = (selectedVecs (v :: te') (1 :: m')).foldr vecAdd (zeros H)
      rw [vecMul_replicate_one v H (hwf v (List.mem_cons_self _ _)), ih]
      have : selectedVecs (v :: te') ((1 : ℚ) :: m') = v :: selectedVecs te' m' := by
        simp [selectedVecs, List.zip_cons_cons]
      rw [this, List.foldr_cons]

/-- For a 0/1 mask of the same length as the token list, the mask sum counts
the selected vectors. -/
theorem mask_sum_eq_selected_count :
    ∀ (te : Mat) (m : Vec), te.length = m.length → (∀ x ∈ m, x = 0 ∨ x = 1) →
      m.sum = ((selectedVecs te m).length : ℚ)
  | [], [], _, _ => by simp [selectedVecs]
  | [], _ :: _, hl, _ => by simp at hl
  | _ :: _, [], hl, _ => by simp at hl
  | v :: te', x :: m', hl, h01 => by
    have hl' : te'.length = m'.length := by simpa using hl
    have h01' : ∀ y ∈ m', y = 0 ∨ y = 1 := fun y hy => h01 y (List.mem_cons_of_mem _ hy)
    have ih := mask_sum_eq_selected_count te' m' hl' h01'
    rcases h01 x (List.mem_cons_self _ _) with hx | hx <;> subst hx
    · have : selectedVecs (v :: te') ((0 : ℚ) :: m') = selectedVecs te' m' := by
        simp [selectedVecs, List.zip_cons_cons]
      rw [List.sum_cons, this, ih, zero_add]
    · have : selectedVecs (v :: te') ((1 : ℚ) :: m') = v :: selectedVecs te' m' := by
        simp [selectedVecs, List.zip_cons_cons]
      rw [List.sum_cons, this, ih, List.length_cons]
      push_cast
      ring

/-- Row-level main lemma: on a 0/1 mask with at least one selected position,
pooling is the arithmetic mean of the selected token vectors. -/
theorem rowForward_eq_mean_selected (te : Mat) (m : Vec) (H : ℕ)
    (hwf : ∀ v ∈ te, v.length = H) (h01 : ∀ x ∈ m, x = 0 ∨ x = 1)
    (hl : te.length = m.length) (hpos : selectedVecs te m ≠ []) :
    rowForward te m H = meanVecs (selectedVecs te m) H := by
  have hc1 : (1 : ℚ) ≤ ((selectedVecs te m).length : ℚ) := by
    have : 1 ≤ (selectedVecs te m).length :=
      Nat.one_le_iff_ne_zero.mpr (fun h0 => hpos (List.length_eq_zero.mp h0))
    exact_mod_cast this
  have hmax : max ((selectedVecs te m).length : ℚ) eps = ((selectedVecs te m).length : ℚ) :=
    max_eq_left (le_trans (by norm_num [eps]) hc1)
  have hnum := masked_sum_eq_selected_sum te m H hwf h01
  have hnlen : ((List.zipWith vecMul te (expandRow m H)).foldr vecAdd (zeros H)).length = H :=
    foldr_vecAdd_length _ H (zipWith_vecMul_length te m H hwf)
  rw [rowForward, foldr_expandRow, List.map_replicate,
    mask_sum_eq_selected_count te m hl h01, hmax, hnum,
    vecDiv_replicate _ H _ (hnum ▸ hnlen), meanVecs]

theorem vecDiv_length (a b : Vec) : (vecDiv a b).length = min a.length b.length := by
  simp [vecDiv]

theorem foldr_vecAdd_all_zeros (vs : Mat) (H : ℕ) (h : ∀ v ∈ vs, v = zeros H) :
    vs.foldr vecAdd (zeros H) = zeros H := by
  induction vs with
  | nil => rfl
  | cons v vs' ih =>
    show vecAdd v (vs'.foldr vecAdd (zeros H)) = zeros H
    rw [ih (fun w hw => h w (List.mem_cons_of_mem _ hw)), h v (List.mem_cons_self _ _),
      zeros, vecAdd, zipWith_replicate_replicate, add_zero]

/-- On an all-zero mask row, row pooling returns exactly the zero vector:
the masked sum is zero in every coordinate and 0 / 1e-9 = 0. -/
theorem rowForward_zero_mask (te : Mat) (m : Vec) (H : ℕ)
    (hwf : ∀ v ∈ te, v.length = H) (hz : ∀ x ∈ m, x = 0) :
    rowForward te m H = zeros H := by
  have hprod : ∀ w ∈ List.zipWith vecMul te (expandRow m H), w = zeros H := by
    intro w hw
    rcases mem_zipWith vecMul te (expandRow m H) w hw with ⟨u, ev, hu, hev, hweq⟩
    rcases List.mem_map.mp hev with ⟨x, hxm, hxe⟩
    rw [hweq, ← hxe, hz x hxm]
    exact vecMul_replicate_zero u H (hwf u hu)
  have hsum : m.sum = 0 := List.sum_eq_zero hz
  rw [rowForward, foldr_vecAdd_all_zeros _ H hprod, foldr_expandRow, hsum,
    List.map_replicate, max_eq_right (by norm_num [eps] : (0 : ℚ) ≤ eps),
    zeros, vecDiv, zipWith_replicate_replicate, zero_div]

theorem rowForward_length (te : Mat) (m : Vec) (H : ℕ)
    (hwf : ∀ v ∈ te, v.length = H) : (rowForward te m H).length = H := by
  have h1 : ((List.zipWith vecMul te (expandRow m H)).foldr vecAdd (zeros H)).length = H :=
    foldr_vecAdd_length _ H (zipWith_vecMul_length te m H hwf)
  rw [rowForward, vecDiv_length, h1, foldr_expandRow]
  simp

/-- Batch form of `rowForward_eq_mean_selected`, pushed through `zipWith`. -/
theorem zipWith_rowForward_eq_mean :
    ∀ (h : Tensor3) (m : Mat) (H : ℕ),
      (∀ te ∈ h, ∀ v ∈ te, v.length = H) →
      (∀ row ∈ m, ∀ x ∈ row, x = 0 ∨ x = 1) →
      (∀ p ∈ h.zip m, p.1.length = p.2.length) →
      (∀ p ∈ h.zip m, selectedVecs p.1 p.2 ≠ []) →
      List.zipWith (fun te r => rowForward te r H) h m
        = List.zipWith (fun te row => meanVecs (selectedVecs te row) H) h m
  | [], m, H, _, _, _, _ => by cases m <;> rfl
  | te :: h', [], H, _, _, _, _ => rfl
  | te :: h', r :: m', H, hwf, h01, hTl, hpos => by
    have hmem : (te, r) ∈ (te :: h').zip (r :: m') := by
      rw [List.zip_cons_cons]
      exact List.mem_cons_self _ _
    have htail : ∀ p ∈ h'.zip m', p ∈ (te :: h').zip (r :: m') := by
      intro p hp
      rw [List.zip_cons_cons]
      exact List.mem_cons_of_mem _ hp
    have ih := zipWith_rowForward_eq_mean h' m' H
      (fun u hu => hwf u (List.mem_cons_of_mem _ hu))
      (fun row hrow => h01 row (List.mem_cons_of_mem _ hrow))
      (fun p hp => hTl p (htail p hp))
      (fun p hp => hpos p (htail p hp))
    show rowForward te r H :: List.zipWith (fun te r => rowForward te r H) h' m'
        = meanVecs (selectedVecs te r) H
          :: List.zipWith (fun te row => meanVecs (selectedVecs te row) H) h' m'
    rw [ih, rowForward_eq_mean_selected te r H
      (hwf te (List.mem_cons_self _ _)) (h01 r (List.mem_cons_self _ _))
      (hTl (te, r) hmem) (hpos (te, r) hmem)]

/- ## Claim theorems for the pooling component -/

/-- C1: the masked mean pooling of `SentenceEmbeddingModel.forward` computes
exactly the spec's four steps: expand the (B, T) mask to (B, T, H) and cast to
floating point, multiply elementwise with the hidden states and sum over T,
sum the expanded mask over T and clamp each entry to a minimum of 1e-9, and
divide the summed embeddings by the clamped counts elementwise. -/
theorem forward_matches_spec_steps (hidden : Tensor3) (mask : Mat) (H : ℕ) :
    SentenceEmbeddingModel.forward hidden mask H = specMaskedMeanPooling hidden mask H := rfl

/-- C2: for hidden states of shape (B, T, H) and a 0/1 mask of shape (B, T)
with at least one unmasked position per example (k < T zero entries), each
pooled row equals the arithmetic mean of exactly the T−k token vectors at the
unmasked positions; an all-ones mask (k = 0) is the plain mean over T as a
special case. -/
theorem pooling_eq_mean_of_unmasked (h : Tensor3) (m : Mat) (H : ℕ)
    (hwf : ∀ te ∈ h, ∀ v ∈ te, v.length = H)
    (h01 : ∀ row ∈ m, ∀ x ∈ row, x = 0 ∨ x = 1)
    (hTl : ∀ p ∈ h.zip m, p.1.length = p.2.length)
    (hpos : ∀ p ∈ h.zip m, selectedVecs p.1 p.2 ≠ []) :
    SentenceEmbeddingModel.forward h m H
      = List.zipWith (fun te row => meanVecs (selectedVecs te row) H) h m := by
  rw [forward_eq_zipWith]
  exact zipWith_rowForward_eq_mean h m H hwf h01 hTl hpos

/-- C2 witness: a concrete (1, 2, 2) batch with mask [[1, 0]]. -/
theorem pooling_eq_mean_of_unmasked_witness :
    (∀ te ∈ [[[(1 : ℚ), 2], [3, 5]]], ∀ v ∈ te, v.length = 2) ∧
    SentenceEmbeddingModel.forward [[[(1 : ℚ), 2], [3, 5]]] [[1, 0]] 2
      = List.zipWith (fun te row => meanVecs (selectedVecs te row) 2)
          [[[(1 : ℚ), 2], [3, 5]]] [[1, 0]] :=
  ⟨by decide, pooling_eq_mean_of_unmasked [[[(1 : ℚ), 2], [3, 5]]] [[1, 0]] 2
    (by decide) (by decide) (by decide) (by decide)⟩

/-- C3: for finite hidden states of shape (B, T, H) and a fully zero mask,
pooling is a total function (no division error: division is by the clamped
value 1e-9) and every entry of the output has magnitude at most 1e-9; over ℚ
there is no NaN or Inf and every value is finite by construction. -/
theorem all_zero_mask_output_near_zero (h : Tensor3) (m : Mat) (H : ℕ)
    (hwf : ∀ te ∈ h, ∀ v ∈ te, v.length = H)
    (hz : ∀ row ∈ m, ∀ x ∈ row, x = 0) :
    ∀ row ∈ SentenceEmbeddingModel.forward h m H, ∀ x ∈ row, |x| ≤ eps := by
  intro row hrow x hx
  rw [forward_eq_zipWith] at hrow
  rcases mem_zipWith _ h m row hrow with ⟨te, r, hte, hr, hroweq⟩
  subst hroweq
  rw [rowForward_zero_mask te r H (hwf te hte) (hz r hr)] at hx
  rw [List.eq_of_mem_replicate hx]
  norm_num [eps]

/-- C3 witness: a concrete batch with a fully zero mask. -/
theorem all_zero_mask_output_near_zero_witness :
    (∀ row ∈ [[(0 : ℚ), 0]], ∀ x ∈ row, x = 0) ∧
    ∀ row ∈ SentenceEmbeddingModel.forward [[[(2 : ℚ), 3], [4, 7]]] [[0, 0]] 2,
      ∀ x ∈ row, |x| ≤ eps :=
  ⟨by decide, all_zero_mask_output_near_zero [[[(2 : ℚ), 3], [4, 7]]] [[0, 0]] 2
    (by decide) (by decide)⟩

/-- C4: for hidden states of shape (B, T, H) and a mask with B rows, the
pooled output has exactly B rows and every row has length H, independent of
T and B. -/
theorem pooling_output_shape (h : Tensor3) (m : Mat) (H : ℕ)
    (hB : h.length = m.length)
    (hwf : ∀ te ∈ h, ∀ v ∈ te, v.length = H) :
    (SentenceEmbeddingModel.forward h m H).length = h.length ∧
      ∀ row ∈ SentenceEmbeddingModel.forward h m H, row.length = H := by
  constructor
  · rw [forward_eq_zipWith, List.length_zipWith, hB, min_self]
  · intro row hrow
    rw [forward_eq_zipWith] at hrow
    rcases mem_zipWith _ h m row hrow with ⟨te, r, hte, _, hroweq⟩
    subst hroweq
    exact rowForward_length te r H (hwf te hte)

/-- C4 witness: a concrete (2, 2, 3) batch. -/
theorem pooling_output_shape_witness :
    ([[[(1 : ℚ), 2, 3], [4, 5, 6]], [[7, 8, 9], [1, 1, 1]]].length
        = [[(1 : ℚ), 1], [1, 0]].length) ∧
    (SentenceEmbeddingModel.forward [[[(1 : ℚ), 2, 3], [4, 5, 6]], [[7, 8, 9], [1, 1, 1]]]
        [[(1 : ℚ), 1], [1, 0]] 3).length
      = [[[(1 : ℚ), 2, 3], [4, 5, 6]], [[7, 8, 9], [1, 1, 1]]].length ∧
    ∀ row ∈ SentenceEmbeddingModel.forward [[[(1 : ℚ), 2, 3], [4, 5, 6]], [[7, 8, 9], [1, 1, 1]]]
        [[(1 : ℚ), 1], [1, 0]] 3, row.length = 3 :=
  ⟨by decide, pooling_output_shape [[[(1 : ℚ), 2, 3], [4, 5, 6]], [[7, 8, 9], [1, 1, 1]]]
    [[(1 : ℚ), 1], [1, 0]] 3 (by decide) (by decide)⟩

/-- C5: two-token scenario. With mask [1, 1] the pooled output is the
arithmetic mean (v1 + v2) / 2 of the two token vectors; with mask [1, 0] it
is exactly the first token vector. -/
theorem two_token_scenario (v1 v2 : Vec) (H : ℕ)
    (h1 : v1.length = H) (h2 : v2.length = H) :
    SentenceEmbeddingModel.forward [[v1, v2]] [[(1 : ℚ), 1]] H
        = [(vecAdd v1 v2).map (fun x => x / 2)] ∧
      SentenceEmbeddingModel.forward [[v1, v2]] [[(1 : ℚ), 0]] H = [v1] := by
  constructor
  · rw [forward_eq_zipWith]
    show [rowForward [v1, v2] [(1 : ℚ), 1] H] = [(vecAdd v1 v2).map (fun x => x / 2)]
    rw [rowForward_eq_mean_selected [v1, v2] [(1 : ℚ), 1] H
      (by intro v hv; rcases List.mem_pair.mp hv with h | h <;> subst h <;> assumption)
      (by decide) rfl (by simp [selectedVecs])]
    have hsel : selectedVecs [v1, v2] [(1 : ℚ), 1] = [v1, v2] := by
      simp [selectedVecs]
    rw [hsel]
    have key : meanVecs [v1, v2] H = (vecAdd v1 v2).map (fun x => x / 2) := by
      show (vecAdd v1 (vecAdd v2 (zeros H))).map (fun x => x / ((2 : ℕ) : ℚ))
          = (vecAdd v1 v2).map (fun x => x / 2)
      rw [vecAdd_zeros_right v2 H h2]
      norm_num
    rw [key]
  · rw [forward_eq_zipWith]
    show [rowForward [v1, v2] [(1 : ℚ), 0] H] = [v1]
    rw [rowForward_eq_mean_selected [v1, v2] [(1 : ℚ), 0] H
      (by intro v hv; rcases List.mem_pair.mp hv with h | h <;> subst h <;> assumption)
      (by decide) rfl (by simp [selectedVecs])]
    have hsel : selectedVecs [v1, v2] [(1 : ℚ), 0] = [v1] := by
      simp [selectedVecs]
    rw [hsel]
    have key : meanVecs [v1] H = v1 := by
      show (vecAdd v1 (zeros H)).map (fun x => x / ((1 : ℕ) : ℚ)) = v1
      rw [vecAdd_zeros_right v1 H h1]
      simp
    rw [key]

/-- C5 witness: concrete two-token vectors of length 2. -/
theorem two_token_scenario_witness :
    ([(1 : ℚ), 2].length = 2) ∧
    SentenceEmbeddingModel.forward [[[(1 : ℚ), 2], [3, 5]]] [[(1 : ℚ), 1]] 2
        = [(vecAdd [(1 : ℚ), 2] [3, 5]).map (fun x => x / 2)] ∧
      SentenceEmbeddingModel.forward [[[(1 : ℚ), 2], [3, 5]]] [[(1 : ℚ), 0]] 2
        = [[(1 : ℚ), 2]] :=
  ⟨by decide, two_token_scenario [(1 : ℚ), 2] [3, 5] 2 (by decide) (by decide)⟩

/-- C9: for any batch element whose mask row is entirely zero, the pooled row
is exactly the zero vector: the masked sum is exactly 0 in every coordinate
and 0 divided by the clamped denominator 1e-9 is exactly 0. -/
theorem zero_mask_row_exact_zero (h : Tensor3) (m : Mat) (H i : ℕ)
    (te : Mat) (mrow : Vec)
    (hh : h.get? i = some te) (hm : m.get? i = some mrow)
    (hwf : ∀ v ∈ te, v.length = H) (hz : ∀ x ∈ mrow, x = 0) :
    (SentenceEmbeddingModel.forward h m H).get? i = some (zeros H) := by
  rw [forward_eq_zipWith, List.get?_zipWith', hh, hm]
  show some (rowForward te mrow H) = some (zeros H)
  rw [rowForward_zero_mask te mrow H hwf hz]

/-- C9 witness: second batch element fully masked, first one not. -/
theorem zero_mask_row_exact_zero_witness :
    ([[[(1 : ℚ), 2]], [[(5 : ℚ), 7]]].get? 1 = some [[(5 : ℚ), 7]]) ∧
    (SentenceEmbeddingModel.forward [[[(1 : ℚ), 2]], [[(5 : ℚ), 7]]]
        [[(1 : ℚ)], [(0 : ℚ)]] 2).get? 1 = some (zeros 2) :=
  ⟨by decide, zero_mask_row_exact_zero [[[(1 : ℚ), 2]], [[(5 : ℚ), 7]]]
    [[(1 : ℚ)], [(0 : ℚ)]] 2 1 [[(5 : ℚ), 7]] [(0 : ℚ)]
    (by decide) (by decide) (by decide) (by decide)⟩

/-- C10: masked mean pooling is per-example independent: row i of the pooled
output depends only on row i of the hidden states and row i of the mask, so
changing any other batch element leaves row i unchanged (two-run
noninterference over the pooling function). -/
theorem pooling_per_example_noninterference (h h2 : Tensor3) (m m2 : Mat) (H i : ℕ)
    (hh : h.get? i = h2.get? i) (hm : m.get? i = m2.get? i) :
    (SentenceEmbeddingModel.forward h m H).get? i
      = (SentenceEmbeddingModel.forward h2 m2 H).get? i := by
  rw [forward_eq_zipWith, forward_eq_zipWith, List.get?_zipWith', List.get?_zipWith', hh, hm]

/-- C10 witness: two batches agreeing only on element 0. -/
theorem pooling_per_example_noninterference_witness :
    ([[[(1 : ℚ), 2]], [[(5 : ℚ), 7]]].get? 0 = [[[(1 : ℚ), 2]], [[(9 : ℚ), 9]]].get? 0) ∧
    (SentenceEmbeddingModel.forward [[[(1 : ℚ), 2]], [[(5 : ℚ), 7]]]
        [[(1 : ℚ)], [(1 : ℚ)]] 2).get? 0
      = (SentenceEmbeddingModel.forward [[[(1 : ℚ), 2]], [[(9 : ℚ), 9]]]
        [[(1 : ℚ)], [(0 : ℚ)]] 2).get? 0 :=
  ⟨by decide, pooling_per_example_noninterference
    [[[(1 : ℚ), 2]], [[(5 : ℚ), 7]]] [[[(1 : ℚ), 2]], [[(9 : ℚ), 9]]]
    [[(1 : ℚ)], [(1 : ℚ)]] [[(1 : ℚ)], [(0 : ℚ)]] 2 0 (by decide) (by decide)⟩

/- ## Export driver (`main`, lines 29-52 of convertModel.py)

The driver is straight-line glue around five external library calls
(tokenizer load, encoder load, tokenization, jit tracing, artifact save).
Each call's behaviour for this run is a field of `Env`, returning
`Except E _` so that a library failure is an explicit error value.  `runMain`
is the script's own control flow over those calls; it also receives the
process argv and environment variables, which the script never reads.
Externally visible actions are recorded as `Effect`s. -/

/-- The hardcoded model path (line 31). -/
def modelName : String := "./data/models/all-MiniLM-L12-v2"

/-- The hardcoded sample sentence (line 41). -/
def sampleText : String := "This is a test sentence."

/-- The fixed output file name (line 50). -/
def outputFile : String := "rust_model.ot"

/-- The printed confirmation (line 52). -/
def confirmMsg : String := "TorchScript model saved to " ++ outputFile

/-- Externally visible actions of the driver. -/
inductive Effect where
  | modelRead (path : String)
  | setEvalMode
  | tokenizeCall (text : String) (padding truncation : Bool)
  | traceCall
  | fileWrite (name : String)
  | printMsg (msg : String)
deriving DecidableEq

/-- True exactly on effects that create or modify persisted state. -/
def Effect.isWrite : Effect → Bool
  | Effect.fileWrite _ => true
  | _ => false

/-- The external collaborators of `main` for one run: tokenizer and encoder
loaders (`from_pretrained`), the tokenizer call with its padding and
truncation flags, `torch.jit.trace`, and `traced_model.save`. -/
structure Env (E Tok Enc Coded Traced : Type) where
  loadTokenizer : String → Except E Tok
  loadModel : String → Except E Enc
  tokenize : Tok → String → Bool → Bool → Except E Coded
  jitTrace : Enc → Coded → Except E Traced
  save : Traced → String → Except E Unit

/-- The effect trace of a successful run, in program order. -/
def successTrace : List Effect :=
  [Effect.modelRead modelName, Effect.setEvalMode,
   Effect.tokenizeCall sampleText true true, Effect.traceCall,
   Effect.fileWrite outputFile, Effect.printMsg confirmMsg]

/-- `main` (lines 29-52): load the tokenizer and the encoder from the fixed
path, set evaluation mode, tokenize the sample sentence with padding and
truncation, trace, save under the fixed name, print the confirmation.  There
is no validation, no retry and no handler: each step's error short-circuits
the rest.  `argv` and `envVars` model the process inputs the script never
consults. -/
def runMain {E Tok Enc Coded Traced : Type} (env : Env E Tok Enc Coded Traced)
    (_argv : List String) (_envVars : String → Option String) : Except E (List Effect) :=
  Except.bind (env.loadTokenizer modelName) (fun tokenizer =>
  Except.bind (env.loadModel modelName) (fun model =>
  Except.bind (env.tokenize tokenizer sampleText true true) (fun encoded =>
  Except.bind (env.jitTrace model encoded) (fun traced =>
  Except.bind (env.save traced outputFile) (fun _ =>
  Except.ok successTrace)))))

/-- C6: the pooling forward computation and the export pipeline are
deterministic functions of their inputs: two runs on equal inputs yield
equal outputs (the traced artifact of the run is whatever `Env.jitTrace`
produces, so equal library behaviour and equal inputs give identical
results). -/
theorem export_pipeline_deterministic {E Tok Enc Coded Traced : Type}
    (env1 env2 : Env E Tok Enc Coded Traced)
    (argv1 argv2 : List String) (ev1 ev2 : String → Option String)
    (h1 h2 : Tensor3) (m1 m2 : Mat) (H : ℕ)
    (henv : env1 = env2) (hh : h1 = h2) (hm : m1 = m2) :
    SentenceEmbeddingModel.forward h1 m1 H = SentenceEmbeddingModel.forward h2 m2 H ∧
      runMain env1 argv1 ev1 = runMain env2 argv2 ev2 := by
  subst henv hh hm
  exact ⟨rfl, rfl⟩

/-- A trivial all-succeeding environment over unit payloads, for witnesses. -/
def envOk : Env String Unit Unit Unit Unit where
  loadTokenizer := fun _ => Except.ok ()
  loadModel := fun _ => Except.ok ()
  tokenize := fun _ _ _ _ => Except.ok ()
  jitTrace := fun _ _ => Except.ok ()
  save := fun _ _ => Except.ok ()

/-- C6 witness: a concrete environment, argv pair and pooling input. -/
theorem export_pipeline_deterministic_witness :
    SentenceEmbeddingModel.forward [[[(1 : ℚ), 2]]] [[(1 : ℚ)]] 2
        = SentenceEmbeddingModel.forward [[[(1 : ℚ), 2]]] [[(1 : ℚ)]] 2 ∧
      runMain envOk [] (fun _ => none)
        = runMain envOk [outputFile] (fun _ => some modelName) :=
  export_pipeline_deterministic envOk envOk [] [outputFile]
    (fun _ => none) (fun _ => some modelName)
    [[[(1 : ℚ), 2]]] [[[(1 : ℚ), 2]]] [[(1 : ℚ)]] [[(1 : ℚ)]] 2 rfl rfl rfl

/-- C7: the driver performs no validation, no retry and no partial-failure
handling: whichever external call fails first (model loading, tokenization,
tracing or saving), its error value propagates unmodified out of `main` and
ends the single-shot run, with no catch or recovery anywhere. -/
theorem errors_propagate_unmodified {E Tok Enc Coded Traced : Type}
    (env : Env E Tok Enc Coded Traced)
    (argv : List String) (ev : String → Option String) (e : E) :
    (env.loadTokenizer modelName = Except.error e →
        runMain env argv ev = Except.error e) ∧
    (∀ tok, env.loadTokenizer modelName = Except.ok tok →
        env.loadModel modelName = Except.error e →
        runMain env argv ev = Except.error e) ∧
    (∀ tok enc, env.loadTokenizer modelName = Except.ok tok →
        env.loadModel modelName = Except.ok enc →
        env.tokenize tok sampleText true true = Except.error e →
        runMain env argv ev = Except.error e) ∧
    (∀ tok enc coded, env.loadTokenizer modelName = Except.ok tok →
        env.loadModel modelName = Except.ok enc →
        env.tokenize tok sampleText true true = Except.ok coded →
        env.jitTrace enc coded = Except.error e →
        runMain env argv ev = Except.error e) ∧
    (∀ tok enc coded traced, env.loadTokenizer modelName = Except.ok tok →
        env.loadModel modelName = Except.ok enc →
        env.tokenize tok sampleText true true = Except.ok coded →
        env.jitTrace enc coded = Except.ok traced →
        env.save traced outputFile = Except.error e →
        runMain env argv ev = Except.error e) := by
  refine ⟨fun ha => ?_, fun tok ha hb => ?_, fun tok enc ha hb hc => ?_,
    fun tok enc coded ha hb hc hd => ?_, fun tok enc coded traced ha hb hc hd he => ?_⟩
  · simp [runMain, Except.bind, ha]
  · simp [runMain, Except.bind, ha, hb]
  · simp [runMain, Except.bind, ha, hb, hc]
  · simp [runMain, Except.bind, ha, hb, hc, hd]
  · simp [runMain, Except.bind, ha, hb, hc, hd, he]

/-- Environments failing at each successive stage, for the C7 witness. -/
def envFail1 : Env String Unit Unit Unit Unit :=
  { envOk with loadTokenizer := fun _ => Except.error ("no tokenizer") }

def envFail2 : Env String Unit Unit Unit Unit :=
  { envOk with loadModel := fun _ => Except.error ("no model") }

def envFail3 : Env String Unit Unit Unit Unit :=
  { envOk with tokenize := fun _ _ _ _ => Except.error ("bad text") }

def envFail4 : Env String Unit Unit Unit Unit :=
  { envOk with jitTrace := fun _ _ => Except.error ("unsupported op") }

def envFail5 : Env String Unit Unit Unit Unit :=
  { envOk with save := fun _ _ => Except.error ("disk full") }

/-- C7 witness: one failing run per stage, each surfacing the library error. -/
theorem errors_propagate_unmodified_witness :
    runMain envFail1 [] (fun _ => none) = Except.error ("no tokenizer") ∧
    runMain envFail2 [] (fun _ => none) = Except.error ("no model") ∧
    runMain envFail3 [] (fun _ => none) = Except.error ("bad text") ∧
    runMain envFail4 [] (fun _ => none) = Except.error ("unsupported op") ∧
    runMain envFail5 [] (fun _ => none) = Except.error ("disk full") :=
  ⟨(errors_propagate_unmodified envFail1 [] (fun _ => none) ("no tokenizer")).1 rfl,
   (errors_propagate_unmodified envFail2 [] (fun _ => none) ("no model")).2.1 () rfl rfl,
   (errors_propagate_unmodified envFail3 [] (fun _ => none) ("bad text")).2.2.1
     () () rfl rfl rfl,
   (errors_propagate_unmodified envFail4 [] (fun _ => none) ("unsupported op")).2.2.2.1
     () () () rfl rfl rfl rfl,
   (errors_propagate_unmodified envFail5 [] (fun _ => none) ("disk full")).2.2.2.2
     () () () () rfl rfl rfl rfl rfl⟩

/-- C8: a successful run produces exactly the effect trace `successTrace`:
its only persisted-state write is the single file `rust_model.ot`, it prints
the confirmation, it sets evaluation mode and tokenizes the one hardcoded
sentence with padding and truncation enabled before the trace call, and the
result never depends on argv or environment variables. -/
theorem successful_run_frame {E Tok Enc Coded Traced : Type}
    (env : Env E Tok Enc Coded Traced)
    (argv : List String) (ev : String → Option String)
    (tok : Tok) (enc : Enc) (coded : Coded) (traced : Traced)
    (h1 : env.loadTokenizer modelName = Except.ok tok)
    (h2 : env.loadModel modelName = Except.ok enc)
    (h3 : env.tokenize tok sampleText true true = Except.ok coded)
    (h4 : env.jitTrace enc coded = Except.ok traced)
    (h5 : env.save traced outputFile = Except.ok ()) :
    runMain env argv ev = Except.ok successTrace ∧
    successTrace.filter Effect.isWrite = [Effect.fileWrite outputFile] ∧
    Effect.printMsg confirmMsg ∈ successTrace ∧
    successTrace.indexOf Effect.setEvalMode < successTrace.indexOf Effect.traceCall ∧
    successTrace.indexOf (Effect.tokenizeCall sampleText true true)
      < successTrace.indexOf Effect.traceCall ∧
    (∀ (argv2 : List String) (ev2 : String → Option String),
      runMain env argv2 ev2 = runMain env argv ev) := by
  refine ⟨?_, by decide, by decide, by decide, by decide, fun argv2 ev2 => rfl⟩
  simp [runMain, Except.bind, h1, h2, h3, h4, h5]

/-- C8 witness: the all-succeeding environment. -/
theorem successful_run_frame_witness :
    envOk.loadTokenizer modelName = Except.ok () ∧
    runMain envOk [] (fun _ => none) = Except.ok successTrace ∧
    successTrace.filter Effect.isWrite = [Effect.fileWrite outputFile] :=
  ⟨rfl,
   (successful_run_frame envOk [] (fun _ => none) () () () ()
     rfl rfl rfl rfl rfl).1,
   (successful_run_frame envOk [] (fun _ => none) () () () ()
     rfl rfl rfl rfl rfl).2.1⟩

end ConvertModel
